import Mathlib

/-
Verification of the metadata storage contract of the metastorage package
(retry-queue message metadata: queue states, metadata records, the Backend
contract, and its error taxonomy).

The package's Go sources define the data types, the `QueueState.String`
method, and four sentinel errors; the Backend itself is an interface with
no implementation in the repository.  Where a claim is decided by backend
behaviour, a reference in-memory backend is modelled from the spec (each
such definition is marked `Modelled from the spec:`); the Go definitions
that do exist (types, constants, `String`, the sentinels) are translated
directly.
-/

set_option autoImplicit false

namespace MetaStorage

/-- Go: `type QueueState int`.  Machine integers are embedded as `Int`;
the Go value range plays no role in the claims considered. -/
abbrev QueueState := Int

/-- Go constant `StateIncoming` (`iota` = 0). -/
def StateIncoming : QueueState := 0

/-- Go constant `StateActive` (`iota` = 1). -/
def StateActive : QueueState := 1

/-- Go constant `StateDeferred` (`iota` = 2). -/
def StateDeferred : QueueState := 2

/-- Go constant `StateHold` (`iota` = 3). -/
def StateHold : QueueState := 3

/-- Go constant `StateBounce` (`iota` = 4). -/
def StateBounce : QueueState := 4

/-- Translation of the Go method `QueueState.String` (interface.go): a
switch over the five constants with a `default` branch returning
`"unknown"`.  Named `string` because `String` would shadow the builtin
type. -/
def QueueState.string (s : QueueState) : String :=
  if s = StateIncoming then "incoming"
  else if s = StateActive then "active"
  else if s = StateDeferred then "deferred"
  else if s = StateHold then "hold"
  else if s = StateBounce then "bounce"
  else "unknown"

/-- Translation of the Go struct `MessageMetadata` (interface.go).
`time.Time` values are embedded as `Int` (a point on the clock's time
line); the Go map `Headers` is embedded as an association list. -/
structure MessageMetadata where
  ID : String
  State : QueueState
  Attempts : Int
  MaxAttempts : Int
  NextRetry : Int
  Created : Int
  Updated : Int
  LastError : String
  Size : Int
  Priority : Int
  Headers : List (String × String)
deriving DecidableEq

/-- Translation of the Go struct `MessageListOptions` (interface.go).
`Since` is a `time.Time`, embedded as `Int`; the Go zero time is `0`. -/
structure MessageListOptions where
  Limit : Int
  Offset : Int
  SortBy : String
  SortOrder : String
  Since : Int
deriving DecidableEq

/-- Translation of the Go struct `MessageListResult` (interface.go). -/
structure MessageListResult where
  MessageIDs : List String
  Total : Int
  HasMore : Bool
deriving DecidableEq

/-- A Go `error` value created by `errors.New`: distinguished by its
message text (each `errors.New` call yields a distinct sentinel; the four
sentinels below have pairwise distinct messages, so message equality
coincides with sentinel identity). -/
structure GoError where
  msg : String
deriving DecidableEq

/-- Translation of `ErrMessageNotFound` (factory.go). -/
def ErrMessageNotFound : GoError := ⟨"message not found"⟩

/-- Translation of `ErrBackendClosed` (factory.go). -/
def ErrBackendClosed : GoError := ⟨"backend is closed"⟩

/-- Translation of `ErrInvalidState` (factory.go). -/
def ErrInvalidState : GoError := ⟨"invalid state transition"⟩

/-- Translation of the `var` block "Common errors" in factory.go: the
complete list of sentinel errors the package defines. -/
def commonErrors : List GoError :=
  [ErrMessageNotFound, ErrBackendClosed, ErrInvalidState,
   ⟨"state conflict: message not in expected state"⟩]

/-- Translation of `ErrStateConflict` (factory.go). -/
def ErrStateConflict : GoError := ⟨"state conflict: message not in expected state"⟩

/-- Modelled from the spec: the closed error taxonomy of §7 — NotFound,
AlreadyExists, InvalidState, BackendClosed, StateConflict, Canceled.  The
repository itself only defines sentinel values for four of these kinds
(factory.go); the taxonomy as a whole appears only in the spec. -/
inductive MetaError where
  | notFound
  | alreadyExists
  | invalidState
  | backendClosed
  | stateConflict
  | canceled
deriving DecidableEq

/-- The sentinel error the package (factory.go) defines for each taxonomy
kind, if any: the package has no sentinel for AlreadyExists or Canceled. -/
def MetaError.sentinel : MetaError → Option GoError
  | .notFound => some ErrMessageNotFound
  | .alreadyExists => none
  | .invalidState => some ErrInvalidState
  | .backendClosed => some ErrBackendClosed
  | .stateConflict => some ErrStateConflict
  | .canceled => none

/-- First-match lookup in an association list keyed by identifier. -/
def lookup {α : Type} : List (String × α) → String → Option α
  | [], _ => none
  | p :: rest, k => if p.1 = k then some p.2 else lookup rest k

/-- Replaces the value stored under key `k` (wherever the key occurs),
leaving other entries untouched. -/
def setKey {α : Type} (l : List (String × α)) (k : String) (v : α) :
    List (String × α) :=
  l.map fun p => if p.1 = k then (k, v) else p

/-- Removes every entry stored under key `k`. -/
def removeKey {α : Type} (l : List (String × α)) (k : String) :
    List (String × α) :=
  l.filter fun p => p.1 != k

/-- Modelled from the spec: the repository contains only the `Backend`
interface (interface.go), no implementation, so the reference in-memory
backend of §2/§4.1 is modelled from the contract: a record table keyed by
the caller-supplied identifier, a per-state index (the state each
identifier's bucket membership is in, used for counting), a store-assigned
logical clock supplying `Created`/`Updated` timestamps, and a closed
flag. -/
structure Store where
  records : List (String × MessageMetadata)
  stateIndex : List (String × QueueState)
  now : Int
  closed : Bool
deriving DecidableEq

/-- The record currently stored under `id`, if any. -/
def Store.find (s : Store) (id : String) : Option MessageMetadata :=
  lookup s.records id

/-- Modelled from the spec: `StoreMeta(id, metadata)` (§4.1) — creates a
new record, failing with AlreadyExists if `id` is already present;
`Created` and `Updated` are store-assigned (§3), all other fields are
taken from the caller; the record enters the per-state index bucket of its
initial state.  A closed backend fails with BackendClosed (§4.1 Close). -/
def Store.storeMeta (s : Store) (id : String) (m : MessageMetadata) :
    Except MetaError Store :=
  if s.closed then .error .backendClosed
  else
    match lookup s.records id with
    | some _ => .error .alreadyExists
    | none =>
        .ok { s with
                records := (id, { m with Created := s.now, Updated := s.now }) :: s.records,
                stateIndex := (id, m.State) :: s.stateIndex,
                now := s.now + 1 }

/-- Modelled from the spec: `GetMeta(id)` (§4.1) — returns the current
record, failing with NotFound if absent. -/
def Store.getMeta (s : Store) (id : String) : Except MetaError MessageMetadata :=
  if s.closed then .error .backendClosed
  else
    match lookup s.records id with
    | some m => .ok m
    | none => .error .notFound

/-- Modelled from the spec: `UpdateMeta(id, metadata)` (§4.1) — replaces
the stored record's mutable fields with the supplied values and refreshes
`Updated`; the identifier is not replaced, `Created` is immutable after
creation (§3), and the state/index membership is not changed (state
changes must go through `MoveToState`).  Fails with NotFound if absent. -/
def Store.updateMeta (s : Store) (id : String) (m : MessageMetadata) :
    Except MetaError Store :=
  if s.closed then .error .backendClosed
  else
    match lookup s.records id with
    | none => .error .notFound
    | some old =>
        .ok { s with
                records := setKey s.records id
                  { m with ID := old.ID, State := old.State,
                           Created := old.Created, Updated := s.now },
                now := s.now + 1 }

/-- Modelled from the spec: `DeleteMeta(id)` (§4.1) — removes the record
and its index membership.  For an absent identifier the spec leaves the
behaviour a documented per-backend choice and recommends NotFound; the
model follows the recommendation. -/
def Store.deleteMeta (s : Store) (id : String) : Except MetaError Store :=
  if s.closed then .error .backendClosed
  else
    match lookup s.records id with
    | none => .error .notFound
    | some _ =>
        .ok { s with
                records := removeKey s.records id,
                stateIndex := removeKey s.stateIndex id,
                now := s.now + 1 }

/-- Modelled from the spec: `MoveToState(id, fromState, toState)` (§4.1) —
a compare-and-swap: succeeds only if the record's current state equals
`fromState`, then sets it to `toState`, refreshes `Updated`, and updates
per-state index membership in the same atomic step.  Fails with
StateConflict if the current state differs and with NotFound if the id
does not exist. -/
def Store.moveToState (s : Store) (id : String) (fromS toS : QueueState) :
    Except MetaError Store :=
  if s.closed then .error .backendClosed
  else
    match lookup s.records id with
    | none => .error .notFound
    | some m =>
        if m.State = fromS then
          .ok { s with
                  records := setKey s.records id { m with State := toS, Updated := s.now },
                  stateIndex := setKey s.stateIndex id toS,
                  now := s.now + 1 }
        else .error .stateConflict

/-- Modelled from the spec: `Close()` (§4.1) — subsequent calls to any
other method fail with BackendClosed; idempotent. -/
def Store.close (s : Store) : Store :=
  { s with closed := true }

/-- Modelled from the spec: `GetStateCount(state)` of the counter
extension (§4.2) — the count of the state's index bucket, maintained
alongside the mutations so it never drifts from actual membership. -/
def Store.getStateCount (s : Store) (st : QueueState) : Int :=
  ((s.stateIndex.filter fun q => decide (q.2 = st)).length : Int)

/-- The number of records whose own `State` field is `st`. -/
def Store.stateCount (s : Store) (st : QueueState) : Nat :=
  (s.records.filter fun p => decide (p.2.State = st)).length

/-- The sort key of a record under a `SortBy` field name; the Go field
names are `"created"`, `"updated"`, `"priority"`, `"attempts"`, with
creation time as the default. -/
def sortKey (sortBy : String) (m : MessageMetadata) : Int :=
  if sortBy = "updated" then m.Updated
  else if sortBy = "priority" then m.Priority
  else if sortBy = "attempts" then m.Attempts
  else m.Created

/-- Modelled from the spec: the listing order (§4.1) — by the sort key in
the requested order, with a stable tie-break by identifier ascending. -/
def listLe (opts : MessageListOptions) (p q : String × MessageMetadata) : Bool :=
  let kp := sortKey opts.SortBy p.2
  let kq := sortKey opts.SortBy q.2
  if kp = kq then decide (p.1 ≤ q.1)
  else if opts.SortOrder = "desc" then decide (kq < kp)
  else decide (kp < kq)

/-- Inserts an element into a list sorted by `le`, before the first
element it precedes. -/
def insertLe {α : Type} (le : α → α → Bool) (x : α) : List α → List α
  | [] => [x]
  | y :: ys => if le x y then x :: y :: ys else y :: insertLe le x ys

/-- Insertion sort by `le`. -/
def insertionSort {α : Type} (le : α → α → Bool) : List α → List α
  | [] => []
  | x :: xs => insertLe le x (insertionSort le xs)

/-- Modelled from the spec: the `Since` lower-bound filter (§4.1) applies
to the sort field's underlying timestamp when the sort field is
time-based; a zero `Since` (the Go zero time) means no filter. -/
def sinceMatch (opts : MessageListOptions) (m : MessageMetadata) : Bool :=
  if opts.Since = 0 then true
  else if opts.SortBy = "updated" then decide (opts.Since < m.Updated)
  else if opts.SortBy = "priority" ∨ opts.SortBy = "attempts" then true
  else decide (opts.Since < m.Created)

/-- The records matching a ListMessages query (state equality plus the
`Since` filter), in the requested sort order — the matching set before
pagination is applied. -/
def matchingRecords (s : Store) (state : QueueState) (opts : MessageListOptions) :
    List (String × MessageMetadata) :=
  insertionSort (listLe opts)
    (s.records.filter fun p => decide (p.2.State = state) && sinceMatch opts p.2)

/-- The page of identifiers cut out of the sorted matching set by
`Offset`/`Limit`; a `Limit` of zero materializes no identifiers. -/
def pageIDs (sorted : List (String × MessageMetadata)) (opts : MessageListOptions) :
    List String :=
  if opts.Limit = 0 then []
  else ((sorted.drop opts.Offset.toNat).take opts.Limit.toNat).map fun p => p.1

/-- Modelled from the spec: `ListMessages(state, options)` (§4.1) —
returns the identifiers whose current state equals `state`, after the
`Since` filter, sorted, then paginated by `Offset`/`Limit`; `Total` is the
matching count ignoring pagination; `HasMore` is
`Offset + len(results) < Total`; a `Limit` of zero is a count-only query
returning no identifiers. -/
def Store.listMessages (s : Store) (state : QueueState) (opts : MessageListOptions) :
    Except MetaError MessageListResult :=
  if s.closed then .error .backendClosed
  else
    .ok ⟨pageIDs (matchingRecords s state opts) opts,
         ((matchingRecords s state opts).length : Int),
         decide (opts.Offset + ((pageIDs (matchingRecords s state opts) opts).length : Int)
           < ((matchingRecords s state opts).length : Int))⟩

/-- The store state after an operation's result: the new store on success,
the unchanged store on error (a failed call applies no mutation, §5). -/
def exec (r : Except MetaError Store) (s : Store) : Store :=
  match r with
  | .ok s' => s'
  | .error _ => s

/-- Modelled from the spec: a linearized race (§5) — N workers' competing
`MoveToState(id, fromState, ·)` calls, applied in the order in which the
backend serializes them; returns the final store and each call's
outcome. -/
def Store.runRace (s : Store) (id : String) (fromS : QueueState) :
    List QueueState → Store × List (Except MetaError Unit)
  | [] => (s, [])
  | t :: rest =>
    match s.moveToState id fromS t with
    | .ok s1 =>
        let r := s1.runRace id fromS rest
        (r.1, .ok () :: r.2)
    | .error e =>
        let r := s.runRace id fromS rest
        (r.1, .error e :: r.2)

/-- Keys of an association list are pairwise distinct. -/
def keysNodup {α : Type} (l : List (String × α)) : Prop :=
  (l.map fun p => p.1).Nodup

/-- The index-consistency invariant (§3): record and index keys are
unique, every record's identifier sits in the bucket of its own `State`
field, and every index entry points at an existing record in that state —
so each existing record is in exactly one bucket, the right one. -/
def Inv (s : Store) : Prop :=
  keysNodup s.records ∧ keysNodup s.stateIndex ∧
  (∀ p ∈ s.records, lookup s.stateIndex p.1 = some p.2.State) ∧
  (∀ q ∈ s.stateIndex, ∃ p ∈ s.records, p.1 = q.1 ∧ p.2.State = q.2)

instance (s : Store) : Decidable (Inv s) := by
  unfold Inv keysNodup
  infer_instance

/-- A sample metadata record (state Incoming). -/
def sampleMeta : MessageMetadata :=
  { ID := "m1", State := StateIncoming, Attempts := 0, MaxAttempts := 3,
    NextRetry := 0, Created := 0, Updated := 0, LastError := "",
    Size := 10, Priority := 0, Headers := [] }

/-- A second sample metadata record with different field values. -/
def sampleMeta2 : MessageMetadata :=
  { ID := "m1", State := StateDeferred, Attempts := 2, MaxAttempts := 5,
    NextRetry := 9, Created := 7, Updated := 8, LastError := "tmp failure",
    Size := 20, Priority := 1, Headers := [("k", "v")] }

/-- A sample open store holding `sampleMeta` under "m1". -/
def sampleStore : Store :=
  { records := [("m1", sampleMeta)], stateIndex := [("m1", StateIncoming)],
    now := 5, closed := false }

/-- The empty open store. -/
def emptyStore : Store :=
  { records := [], stateIndex := [], now := 0, closed := false }

/-- A closed store. -/
def closedStore : Store :=
  { records := [], stateIndex := [], now := 0, closed := true }

/-- The store after the sample CAS `sampleStore.moveToState "m1" Incoming
Active`: the record and its index entry both moved to Active. -/
def movedStore : Store :=
  { records := [("m1", { sampleMeta with State := StateActive, Updated := 5 })],
    stateIndex := [("m1", StateActive)], now := 6, closed := false }

section AssocLemmas

variable {α : Type}

theorem lookup_eq_none {l : List (String × α)} {k : String}
    (h : lookup l k = none) : ∀ p ∈ l, p.1 ≠ k := by
  induction l with
  | nil => simp
  | cons q rest ih =>
      by_cases hq : q.1 = k
      · simp [lookup, hq] at h
      · intro p hp
        rcases List.mem_cons.mp hp with hp | hp
        · simpa [hp] using hq
        · exact ih (by simpa [lookup, hq] using h) p hp

theorem lookup_mem {l : List (String × α)} {k : String} {v : α}
    (h : lookup l k = some v) : (k, v) ∈ l := by
  induction l with
  | nil => simp [lookup] at h
  | cons q rest ih =>
      obtain ⟨a, b⟩ := q
      by_cases hq : a = k
      · simp [lookup, hq] at h
        subst hq
        subst h
        exact List.mem_cons_self _ _
      · simp [lookup, hq] at h
        exact List.mem_cons_of_mem _ (ih h)

theorem nodup_lookup {l : List (String × α)} {k : String} {v : α}
    (hn : keysNodup l) (h : (k, v) ∈ l) : lookup l k = some v := by
  induction l with
  | nil => cases h
  | cons q rest ih =>
      obtain ⟨a, b⟩ := q
      have hn' : a ∉ (rest.map fun p => p.1) ∧ keysNodup rest := by
        unfold keysNodup at hn
        rw [List.map_cons, List.nodup_cons] at hn
        exact hn
      rcases List.mem_cons.mp h with h | h
      · cases h
        simp [lookup]
      · by_cases hak : a = k
        · subst hak
          exact absurd (List.mem_map.mpr ⟨(a, v), h, rfl⟩) hn'.1
        · have : lookup rest k = some v := ih hn'.2 h
          simp [lookup, hak, this]

theorem lookup_setKey (l : List (String × α)) (k : String) (v : α) (i : String) :
    lookup (setKey l k v) i =
      if i = k then (lookup l k).map (fun _ => v) else lookup l i := by
  induction l with
  | nil => by_cases h : i = k <;> simp [setKey, lookup, h]
  | cons q rest ih =>
      obtain ⟨a, b⟩ := q
      have hcons : setKey ((a, b) :: rest) k v
          = (if a = k then (k, v) else (a, b)) :: setKey rest k v := rfl
      rw [hcons]
      by_cases hak : a = k
      · rw [if_pos hak]
        by_cases hik : i = k
        · subst hik
          simp [lookup, hak]
        · have hki : ¬k = i := fun he => hik he.symm
          have hai : ¬a = i := by
            rw [hak]
            exact hki
          simp [lookup, hki, hik, hai, ih]
      · rw [if_neg hak]
        by_cases hik : i = k
        · subst hik
          simp [lookup, hak, ih]
        · simp [lookup, hak, hik, ih]

theorem keys_setKey (l : List (String × α)) (k : String) (v : α) :
    (setKey l k v).map (fun p => p.1) = l.map fun p => p.1 := by
  induction l with
  | nil => rfl
  | cons q rest ih =>
      obtain ⟨a, b⟩ := q
      have hcons : setKey ((a, b) :: rest) k v
          = (if a = k then (k, v) else (a, b)) :: setKey rest k v := rfl
      rw [hcons]
      by_cases hak : a = k
      · rw [if_pos hak]
        simp [ih, hak]
      · rw [if_neg hak]
        simp [ih]

theorem keysNodup_setKey {l : List (String × α)} (k : String) (v : α)
    (h : keysNodup l) : keysNodup (setKey l k v) := by
  unfold keysNodup at h ⊢
  rw [keys_setKey]
  exact h

theorem mem_setKey_elim {l : List (String × α)} {k : String} {v : α} {p : String × α}
    (h : p ∈ setKey l k v) : (p ∈ l ∧ p.1 ≠ k) ∨ p = (k, v) := by
  rcases List.mem_map.mp h with ⟨q, hq, hqe⟩
  by_cases hqk : q.1 = k
  · right
    rw [if_pos hqk] at hqe
    exact hqe.symm
  · left
    rw [if_neg hqk] at hqe
    subst hqe
    exact ⟨hq, hqk⟩

theorem mem_setKey_of_mem {l : List (String × α)} {k : String} (v : α)
    {p : String × α} (hp : p ∈ l) (hk : p.1 ≠ k) : p ∈ setKey l k v := by
  refine List.mem_map.mpr ⟨p, hp, ?_⟩
  simp [hk]

theorem mem_setKey_self {l : List (String × α)} {k : String} (v : α)
    {w : α} (hp : (k, w) ∈ l) : (k, v) ∈ setKey l k v := by
  refine List.mem_map.mpr ⟨(k, w), hp, ?_⟩
  simp

theorem lookup_removeKey (l : List (String × α)) (k : String) (i : String) :
    lookup (removeKey l k) i = if i = k then none else lookup l i := by
  induction l with
  | nil => by_cases h : i = k <;> simp [removeKey, lookup, h]
  | cons q rest ih =>
      obtain ⟨a, b⟩ := q
      by_cases hak : a = k
      · have hdrop : removeKey ((a, b) :: rest) k = removeKey rest k := by
          unfold removeKey
          rw [List.filter_cons]
          simp [hak]
        rw [hdrop, ih]
        by_cases hik : i = k
        · simp [hik]
        · have hai : ¬a = i := by
            rw [hak]
            exact fun he => hik he.symm
          simp [hik, lookup, hai]
      · have hkeep : removeKey ((a, b) :: rest) k = (a, b) :: removeKey rest k := by
          unfold removeKey
          rw [List.filter_cons]
          simp [hak, bne_iff_ne]
        rw [hkeep]
        by_cases hai : a = i
        · have hik : ¬i = k := by
            rw [← hai]
            exact hak
          simp [lookup, hai, hik]
        · simp [lookup, hai, ih]

theorem mem_removeKey {l : List (String × α)} {k : String} {p : String × α} :
    p ∈ removeKey l k ↔ p ∈ l ∧ p.1 ≠ k := by
  unfold removeKey
  simp [List.mem_filter, bne_iff_ne]

theorem keysNodup_removeKey {l : List (String × α)} (k : String)
    (h : keysNodup l) : keysNodup (removeKey l k) := by
  unfold keysNodup at h ⊢
  unfold removeKey
  exact List.Nodup.sublist ((List.filter_sublist l).map fun p => p.1) h

theorem keysNodup_cons {l : List (String × α)} {k : String} (v : α)
    (hk : lookup l k = none) (hn : keysNodup l) : keysNodup ((k, v) :: l) := by
  unfold keysNodup at hn ⊢
  rw [List.map_cons, List.nodup_cons]
  refine ⟨?_, hn⟩
  intro hmem
  rcases List.mem_map.mp hmem with ⟨p, hp, hpe⟩
  exact lookup_eq_none hk p hp hpe

theorem length_insertLe (le : α → α → Bool) (x : α) (l : List α) :
    (insertLe le x l).length = l.length + 1 := by
  induction l with
  | nil => rfl
  | cons y ys ih =>
      unfold insertLe
      cases h : le x y <;> simp [h, ih]

theorem length_insertionSort (le : α → α → Bool) (l : List α) :
    (insertionSort le l).length = l.length := by
  induction l with
  | nil => rfl
  | cons x xs ih => simp [insertionSort, length_insertLe, ih]

end AssocLemmas

theorem int_ne_five_values (t : Int) (h0 : t ≠ 0) (h1 : t ≠ 1) (h2 : t ≠ 2)
    (h3 : t ≠ 3) (h4 : t ≠ 4) : t < 0 ∨ 4 < t := by
  omega

/-- C9: QueueState.String maps each of the five enumeration values to its
canonical lowercase name: StateIncoming to "incoming", StateActive to
"active", StateDeferred to "deferred", StateHold to "hold", and
StateBounce to "bounce". -/
theorem c9_state_string_names :
    QueueState.string StateIncoming = "incoming" ∧
    QueueState.string StateActive = "active" ∧
    QueueState.string StateDeferred = "deferred" ∧
    QueueState.string StateHold = "hold" ∧
    QueueState.string StateBounce = "bounce" := by
  refine ⟨?_, ?_, ?_, ?_, ?_⟩ <;> decide

/-- C10: QueueState.String is total over all integer-valued QueueState
inputs: every value other than the five defined constants is mapped to
"unknown" rather than failing; such values are exactly those outside
0..4. -/
theorem c10_string_default (s : QueueState)
    (h : s ∉ [StateIncoming, StateActive, StateDeferred, StateHold, StateBounce]) :
    QueueState.string s = "unknown" ∧ (s < 0 ∨ 4 < s) := by
  simp only [List.mem_cons, List.not_mem_nil, or_false, not_or] at h
  obtain ⟨h0, h1, h2, h3, h4⟩ := h
  constructor
  · simp [QueueState.string, h0, h1, h2, h3, h4]
  · exact int_ne_five_values s h0 h1 h2 h3 h4

/-- Witness for C10 at the concrete out-of-range value 7. -/
theorem c10_string_default_witness :
    QueueState.string 7 = "unknown" ∧ ((7 : QueueState) < 0 ∨ 4 < (7 : QueueState)) :=
  c10_string_default 7 (by decide)

/-- C1: MoveToState(id, fromState, toState) is a compare-and-swap: it
succeeds if and only if the stored record's current state equals
fromState, in which case it sets the state to toState and refreshes
Updated; with a record in a different state it fails with StateConflict,
and with no record it fails with NotFound. -/
theorem c1_moveToState_cas (s : Store) (id : String) (fromS toS : QueueState)
    (hc : s.closed = false) :
    (s.find id = none → s.moveToState id fromS toS = .error .notFound) ∧
    (∀ m, s.find id = some m → m.State ≠ fromS →
      s.moveToState id fromS toS = .error .stateConflict) ∧
    (∀ m, s.find id = some m → m.State = fromS →
      ∃ s', s.moveToState id fromS toS = .ok s' ∧
        s'.find id = some { m with State := toS, Updated := s.now } ∧
        s'.closed = s.closed ∧ s'.now = s.now + 1) := by
  refine ⟨?_, ?_, ?_⟩
  · intro h
    have h' : lookup s.records id = none := h
    unfold Store.moveToState
    simp [hc, h']
  · intro m hm hs
    have hm' : lookup s.records id = some m := hm
    unfold Store.moveToState
    simp [hc, hm', hs]
  · intro m hm hs
    have hm' : lookup s.records id = some m := hm
    refine ⟨{ s with
                records := setKey s.records id { m with State := toS, Updated := s.now },
                stateIndex := setKey s.stateIndex id toS,
                now := s.now + 1 }, ?_, ?_, rfl, rfl⟩
    · unfold Store.moveToState
      simp [hc, hm', hs]
    · show lookup (setKey s.records id { m with State := toS, Updated := s.now }) id = _
      rw [lookup_setKey, if_pos rfl, hm']
      rfl

/-- Witness for C1: the successful CAS branch on the sample store. -/
theorem c1_moveToState_cas_witness :
    ∃ s', Store.moveToState sampleStore "m1" StateIncoming StateActive = .ok s' ∧
      s'.find "m1" = some { sampleMeta with State := StateActive, Updated := sampleStore.now } ∧
      s'.closed = sampleStore.closed ∧ s'.now = sampleStore.now + 1 :=
  (c1_moveToState_cas sampleStore "m1" StateIncoming StateActive rfl).2.2
    sampleMeta (by decide) (by decide)

/-- C4: a second StoreMeta under an identifier already present fails with
AlreadyExists, the store is unchanged by the failing call, and GetMeta
still returns the original record. -/
theorem c4_storeMeta_duplicate (s : Store) (id : String) (m0 m' : MessageMetadata)
    (hc : s.closed = false) (hm : s.find id = some m0) :
    s.storeMeta id m' = .error .alreadyExists ∧
    exec (s.storeMeta id m') s = s ∧
    (exec (s.storeMeta id m') s).getMeta id = .ok m0 := by
  have hm' : lookup s.records id = some m0 := hm
  have h1 : s.storeMeta id m' = .error .alreadyExists := by
    unfold Store.storeMeta
    simp [hc, hm']
  refine ⟨h1, ?_, ?_⟩
  · rw [h1]
    rfl
  · rw [h1]
    show s.getMeta id = .ok m0
    unfold Store.getMeta
    simp [hc, hm']

/-- Witness for C4 on the sample store. -/
theorem c4_storeMeta_duplicate_witness :
    Store.storeMeta sampleStore "m1" sampleMeta2 = .error .alreadyExists ∧
    exec (Store.storeMeta sampleStore "m1" sampleMeta2) sampleStore = sampleStore ∧
    (exec (Store.storeMeta sampleStore "m1" sampleMeta2) sampleStore).getMeta "m1" =
      .ok sampleMeta :=
  c4_storeMeta_duplicate sampleStore "m1" sampleMeta sampleMeta2 rfl (by decide)

/-- C5: for a fresh identifier, StoreMeta then GetMeta returns a record
equal to the supplied one in every field except the timestamps: Created
and Updated are assigned by the store (the store's clock, not the
caller's values) and Updated ≥ Created. -/
theorem c5_store_then_get (s : Store) (id : String) (m : MessageMetadata)
    (hc : s.closed = false) (hm : s.find id = none) :
    ∃ s' r, s.storeMeta id m = .ok s' ∧ s'.getMeta id = .ok r ∧
      r.Created = s.now ∧ r.Updated = s.now ∧ r.Created ≤ r.Updated ∧
      { r with Created := m.Created, Updated := m.Updated } = m := by
  have hm' : lookup s.records id = none := hm
  refine ⟨{ s with
              records := (id, { m with Created := s.now, Updated := s.now }) :: s.records,
              stateIndex := (id, m.State) :: s.stateIndex,
              now := s.now + 1 },
          { m with Created := s.now, Updated := s.now }, ?_, ?_, rfl, rfl, le_refl _, rfl⟩
  · unfold Store.storeMeta
    simp [hc, hm']
  · unfold Store.getMeta
    simp [hc, lookup]

/-- Witness for C5: storing `sampleMeta2` (whose caller-supplied
timestamps are nonzero) into the empty store. -/
theorem c5_store_then_get_witness :
    ∃ s' r, Store.storeMeta emptyStore "m9" sampleMeta2 = .ok s' ∧
      s'.getMeta "m9" = .ok r ∧
      r.Created = emptyStore.now ∧ r.Updated = emptyStore.now ∧
      r.Created ≤ r.Updated ∧
      { r with Created := sampleMeta2.Created, Updated := sampleMeta2.Updated } = sampleMeta2 :=
  c5_store_then_get emptyStore "m9" sampleMeta2 rfl rfl

/-- A store holding one Incoming record created at time 1, used to
exercise the `Since` filter. -/
def sinceStore : Store :=
  { records := [("a", { sampleMeta with ID := "a", Created := 1 })],
    stateIndex := [("a", StateIncoming)], now := 3, closed := false }

/-- C7 counterexample: with a `Since` filter set, a Limit = 0 query
reports the count of records matching the filter, not the number of
records currently in the state — here Total = 0 while the state holds one
record. -/
theorem c7_counterexample :
    Store.listMessages sinceStore StateIncoming
      { Limit := 0, Offset := 0, SortBy := "created", SortOrder := "asc", Since := 5 } =
      .ok { MessageIDs := [], Total := 0, HasMore := false } ∧
    Store.stateCount sinceStore StateIncoming = 1 := by
  constructor <;> rfl

/-- C7 (amended): for every open store, state, and options with Limit = 0
and no `Since` filter (Since is the zero time), ListMessages returns an
empty identifier list together with a Total equal to the exact number of
records currently in that state. -/
theorem c7_count_only (s : Store) (st : QueueState) (opts : MessageListOptions)
    (hc : s.closed = false) (hl : opts.Limit = 0) (hs : opts.Since = 0) :
    ∃ r, s.listMessages st opts = .ok r ∧ r.MessageIDs = [] ∧
      r.Total = (s.stateCount st : Int) := by
  refine ⟨⟨pageIDs (matchingRecords s st opts) opts,
           ((matchingRecords s st opts).length : Int),
           decide (opts.Offset + ((pageIDs (matchingRecords s st opts) opts).length : Int)
             < ((matchingRecords s st opts).length : Int))⟩, ?_, ?_, ?_⟩
  · unfold Store.listMessages
    rw [hc]
    rfl
  · show pageIDs (matchingRecords s st opts) opts = []
    unfold pageIDs
    rw [if_pos hl]
  · show ((matchingRecords s st opts).length : Int) = (s.stateCount st : Int)
    have hlen : (matchingRecords s st opts).length = s.stateCount st := by
      unfold matchingRecords
      rw [length_insertionSort]
      unfold Store.stateCount
      congr 1
      apply List.filter_congr
      intro p hp
      simp [sinceMatch, hs]
    rw [hlen]

/-- Witness for the amended C7 on the sample store. -/
theorem c7_count_only_witness :
    ∃ r, Store.listMessages sampleStore StateIncoming
        { Limit := 0, Offset := 0, SortBy := "created", SortOrder := "asc", Since := 0 } =
        .ok r ∧ r.MessageIDs = [] ∧
      r.Total = (Store.stateCount sampleStore StateIncoming : Int) :=
  c7_count_only sampleStore StateIncoming
    { Limit := 0, Offset := 0, SortBy := "created", SortOrder := "asc", Since := 0 }
    rfl rfl rfl

/-- C8: every successful ListMessages call returns a Total equal to the
count of all records matching the query ignoring pagination, and a
HasMore flag equal to the predicate Offset + len(MessageIDs) < Total. -/
theorem c8_total_hasMore (s : Store) (st : QueueState) (opts : MessageListOptions)
    (hc : s.closed = false) :
    ∃ r, s.listMessages st opts = .ok r ∧
      (r.HasMore = true ↔ opts.Offset + (r.MessageIDs.length : Int) < r.Total) ∧
      r.Total = ((s.records.filter fun p =>
        decide (p.2.State = st) && sinceMatch opts p.2).length : Int) := by
  refine ⟨⟨pageIDs (matchingRecords s st opts) opts,
           ((matchingRecords s st opts).length : Int),
           decide (opts.Offset + ((pageIDs (matchingRecords s st opts) opts).length : Int)
             < ((matchingRecords s st opts).length : Int))⟩, ?_, ?_, ?_⟩
  · unfold Store.listMessages
    rw [hc]
    rfl
  · exact decide_eq_true_iff
  · show ((matchingRecords s st opts).length : Int) = _
    unfold matchingRecords
    rw [length_insertionSort]

/-- Witness for C8 on the sample store with a nonzero limit. -/
theorem c8_total_hasMore_witness :
    ∃ r, Store.listMessages sampleStore StateIncoming
        { Limit := 2, Offset := 0, SortBy := "created", SortOrder := "asc", Since := 0 } =
        .ok r ∧
      (r.HasMore = true ↔ (0 : Int) + (r.MessageIDs.length : Int) < r.Total) ∧
      r.Total = ((sampleStore.records.filter fun p =>
        decide (p.2.State = StateIncoming) && sinceMatch
          { Limit := 2, Offset := 0, SortBy := "created", SortOrder := "asc", Since := 0 }
          p.2).length : Int) :=
  c8_total_hasMore sampleStore StateIncoming
    { Limit := 2, Offset := 0, SortBy := "created", SortOrder := "asc", Since := 0 } rfl

/-- C6: every operation (StoreMeta, UpdateMeta, DeleteMeta, MoveToState)
preserves the index-consistency invariant — each existing record belongs
to exactly one state bucket, the bucket of its own State field — and
under the invariant the per-state index count used by GetStateCount
equals the number of records whose State field is that state. -/
theorem c6_index_consistency (s : Store) (hInv : Inv s) :
    (∀ id m s', s.storeMeta id m = .ok s' → Inv s') ∧
    (∀ id m s', s.updateMeta id m = .ok s' → Inv s') ∧
    (∀ id s', s.deleteMeta id = .ok s' → Inv s') ∧
    (∀ id fromS toS s', s.moveToState id fromS toS = .ok s' → Inv s') ∧
    (∀ st, s.getStateCount st = (s.stateCount st : Int)) := by
  obtain ⟨hn1, hn2, h3, h4⟩ := hInv
  refine ⟨?_, ?_, ?_, ?_, ?_⟩
  · intro id m s' h
    unfold Store.storeMeta at h
    by_cases hcl : s.closed
    · simp [hcl] at h
    · cases hl : lookup s.records id with
      | some old => simp [hcl, hl] at h
      | none =>
          simp [hcl, hl] at h
          subst h
          have hidx : lookup s.stateIndex id = none := by
            cases hli : lookup s.stateIndex id with
            | none => rfl
            | some st =>
                obtain ⟨p, hp, hp1, hp2⟩ := h4 (id, st) (lookup_mem hli)
                exact absurd hp1 (lookup_eq_none hl p hp)
          refine ⟨keysNodup_cons _ hl hn1, keysNodup_cons _ hidx hn2, ?_, ?_⟩
          · intro p hp
            rcases List.mem_cons.mp hp with hp | hp
            · subst hp
              simp [lookup]
            · have hne : p.1 ≠ id := lookup_eq_none hl p hp
              have hne' : ¬id = p.1 := fun he => hne he.symm
              simpa [lookup, hne'] using h3 p hp
          · intro q hq
            rcases List.mem_cons.mp hq with hq | hq
            · subst hq
              exact ⟨(id, { m with Created := s.now, Updated := s.now }),
                     List.mem_cons_self _ _, rfl, rfl⟩
            · obtain ⟨p, hp, hp1, hp2⟩ := h4 q hq
              exact ⟨p, List.mem_cons_of_mem _ hp, hp1, hp2⟩
  · intro id m s' h
    unfold Store.updateMeta at h
    by_cases hcl : s.closed
    · simp [hcl] at h
    · cases hl : lookup s.records id with
      | none => simp [hcl, hl] at h
      | some old =>
          simp [hcl, hl] at h
          subst h
          refine ⟨keysNodup_setKey _ _ hn1, hn2, ?_, ?_⟩
          · intro p hp
            rcases mem_setKey_elim hp with ⟨hmem, hne⟩ | heq
            · exact h3 p hmem
            · subst heq
              simpa using h3 (id, old) (lookup_mem hl)
          · intro q hq
            obtain ⟨p, hp, hp1, hp2⟩ := h4 q hq
            by_cases hpid : p.1 = id
            · have hpold : p.2 = old := by
                have hl2 : lookup s.records p.1 = some p.2 := nodup_lookup hn1 hp
                rw [hpid] at hl2
                exact Option.some.inj (hl2.symm.trans hl)
              refine ⟨(id, { m with ID := old.ID, State := old.State, Created := old.Created, Updated := s.now }), mem_setKey_self _ (lookup_mem hl), ?_, ?_⟩
              · exact hpid ▸ hp1
              · exact hpold ▸ hp2
            · exact ⟨p, mem_setKey_of_mem _ hp hpid, hp1, hp2⟩
  · intro id s' h
    unfold Store.deleteMeta at h
    by_cases hcl : s.closed
    · simp [hcl] at h
    · cases hl : lookup s.records id with
      | none => simp [hcl, hl] at h
      | some old =>
          simp [hcl, hl] at h
          subst h
          refine ⟨keysNodup_removeKey _ hn1, keysNodup_removeKey _ hn2, ?_, ?_⟩
          · intro p hp
            obtain ⟨hmem, hne⟩ := mem_removeKey.mp hp
            rw [lookup_removeKey, if_neg hne]
            exact h3 p hmem
          · intro q hq
            obtain ⟨hmem, hne⟩ := mem_removeKey.mp hq
            obtain ⟨p, hp, hp1, hp2⟩ := h4 q hmem
            have hpne : p.1 ≠ id := by
              rw [hp1]
              exact hne
            exact ⟨p, mem_removeKey.mpr ⟨hp, hpne⟩, hp1, hp2⟩
  · intro id fromS toS s' h
    unfold Store.moveToState at h
    by_cases hcl : s.closed
    · simp [hcl] at h
    · cases hl : lookup s.records id with
      | none => simp [hcl, hl] at h
      | some old =>
          by_cases hst : old.State = fromS
          · simp [hcl, hl, hst] at h
            subst h
            refine ⟨keysNodup_setKey _ _ hn1, keysNodup_setKey _ _ hn2, ?_, ?_⟩
            · intro p hp
              rcases mem_setKey_elim hp with ⟨hmem, hne⟩ | heq
              · rw [lookup_setKey, if_neg hne]
                exact h3 p hmem
              · subst heq
                rw [lookup_setKey, if_pos rfl, h3 (id, old) (lookup_mem hl)]
                rfl
            · intro q hq
              rcases mem_setKey_elim hq with ⟨hmem, hne⟩ | heq
              · obtain ⟨p, hp, hp1, hp2⟩ := h4 q hmem
                have hpne : p.1 ≠ id := by
                  rw [hp1]
                  exact hne
                exact ⟨p, mem_setKey_of_mem _ hp hpne, hp1, hp2⟩
              · subst heq
                exact ⟨(id, { old with State := toS, Updated := s.now }),
                       mem_setKey_self _ (lookup_mem hl), rfl, rfl⟩
          · simp [hcl, hl, hst] at h
  · intro st
    have hsub1 : s.stateIndex ⊆ s.records.map fun p => (p.1, p.2.State) := by
      intro q hq
      obtain ⟨p, hp, hp1, hp2⟩ := h4 q hq
      refine List.mem_map.mpr ⟨p, hp, ?_⟩
      rw [hp1, hp2]
    have hsub2 : (s.records.map fun p => (p.1, p.2.State)) ⊆ s.stateIndex := by
      intro x hx
      obtain ⟨p, hp, he⟩ := List.mem_map.mp hx
      subst he
      exact lookup_mem (h3 p hp)
    have hnod1 : s.stateIndex.Nodup := List.Nodup.of_map _ hn2
    have hnod2 : (s.records.map fun p => (p.1, p.2.State)).Nodup :=
      List.Nodup.of_map (fun p => p.1) (by rw [List.map_map]; exact hn1)
    have hperm : List.Perm s.stateIndex (s.records.map fun p => (p.1, p.2.State)) :=
      (List.subperm_of_subset hnod1 hsub1).antisymm (List.subperm_of_subset hnod2 hsub2)
    unfold Store.getStateCount Store.stateCount
    congr 1
    rw [(hperm.filter fun q => decide (q.2 = st)).length_eq, List.filter_map,
      List.length_map]
    rfl

/-- Witness for C6: the invariant holds after the sample CAS, derived by
applying the preservation theorem at the sample store. -/
theorem c6_index_consistency_witness : Inv movedStore :=
  (c6_index_consistency sampleStore (by decide)).2.2.2.1 "m1" StateIncoming StateActive
    movedStore rfl

theorem runRace_conflict (s : Store) (id : String) (fromS : QueueState)
    (tos : List QueueState) (m : MessageMetadata)
    (hc : s.closed = false) (hm : lookup s.records id = some m)
    (hs : m.State ≠ fromS) :
    s.runRace id fromS tos = (s, tos.map fun _ => .error .stateConflict) := by
  induction tos with
  | nil => rfl
  | cons t rest ih =>
      have hmv : s.moveToState id fromS t = .error .stateConflict := by
        unfold Store.moveToState
        simp [hc, hm, hs]
      unfold Store.runRace
      rw [hmv]
      simp [ih]

/-- C2 counterexample: two linearized MoveToState calls on the same
identifier with the same fromState can both succeed — when toState equals
fromState the CAS precondition still holds for the second call — so "at
most one of N racing same-fromState calls succeeds" fails as stated. -/
theorem c2_counterexample :
    (Store.runRace sampleStore "m1" StateIncoming [StateIncoming, StateIncoming]).2 =
      [Except.ok (), Except.ok ()] := rfl

/-- C2 (amended): for racing MoveToState calls with the same fromState
whose winning call's toState differs from fromState, serialized in any
order over a record currently in fromState, exactly the first serialized
call succeeds, every other call receives StateConflict, and the record
ends in the winner's target state. -/
theorem c2_single_winner (s : Store) (id : String) (fromS t : QueueState)
    (rest : List QueueState) (m : MessageMetadata)
    (hc : s.closed = false) (hm : s.find id = some m) (hst : m.State = fromS)
    (ht : t ≠ fromS) :
    (s.runRace id fromS (t :: rest)).2 =
      .ok () :: (rest.map fun _ => .error .stateConflict) ∧
    ∃ m', (s.runRace id fromS (t :: rest)).1.find id = some m' ∧ m'.State = t := by
  have hm' : lookup s.records id = some m := hm
  have hmv : s.moveToState id fromS t = .ok
      { s with records := setKey s.records id { m with State := t, Updated := s.now },
               stateIndex := setKey s.stateIndex id t, now := s.now + 1 } := by
    unfold Store.moveToState
    simp [hc, hm', hst]
  have hs1l : lookup (setKey s.records id { m with State := t, Updated := s.now }) id
      = some { m with State := t, Updated := s.now } := by
    rw [lookup_setKey, if_pos rfl, hm']
    rfl
  have hconf := runRace_conflict
    { s with records := setKey s.records id { m with State := t, Updated := s.now },
             stateIndex := setKey s.stateIndex id t, now := s.now + 1 }
    id fromS rest { m with State := t, Updated := s.now } hc hs1l ht
  have hrun : s.runRace id fromS (t :: rest) =
      ({ s with records := setKey s.records id { m with State := t, Updated := s.now },
                stateIndex := setKey s.stateIndex id t, now := s.now + 1 },
       .ok () :: (rest.map fun _ => .error .stateConflict)) := by
    unfold Store.runRace
    rw [hmv]
    simp [hconf]
  rw [hrun]
  exact ⟨rfl, ⟨{ m with State := t, Updated := s.now }, hs1l, rfl⟩⟩

/-- Witness for the amended C2: two racing workers on the sample store,
the first moving Incoming to Active, the second to Bounce. -/
theorem c2_single_winner_witness :
    (Store.runRace sampleStore "m1" StateIncoming [StateActive, StateBounce]).2 =
      .ok () :: ([StateBounce].map fun _ => .error .stateConflict) ∧
    ∃ m', (Store.runRace sampleStore "m1" StateIncoming
      [StateActive, StateBounce]).1.find "m1" = some m' ∧ m'.State = StateActive :=
  c2_single_winner sampleStore "m1" StateIncoming StateActive [StateBounce]
    sampleMeta rfl (by decide) rfl (by decide)

/-- C3 counterexample: the spec's closed six-kind error surface is not
matched by the package, which defines only four sentinel errors —
there is no AlreadyExists and no Canceled sentinel in factory.go. -/
theorem c3_counterexample :
    MetaError.sentinel .alreadyExists = none ∧
    MetaError.sentinel .canceled = none ∧
    commonErrors.length = 4 :=
  ⟨rfl, rfl, rfl⟩

/-- C3 (amended): every error the modelled backend operations produce
lies in the closed taxonomy — concretely in the subset {BackendClosed,
NotFound, AlreadyExists, StateConflict} — and the four sentinels the
package does define are pairwise distinct, hence distinguishable by kind;
the AlreadyExists and Canceled kinds of the spec's taxonomy have no
package sentinel. -/
theorem c3_error_surface :
    (∀ s id m e, Store.storeMeta s id m = .error e →
      e ∈ [MetaError.backendClosed, MetaError.alreadyExists]) ∧
    (∀ s id e, Store.getMeta s id = .error e →
      e ∈ [MetaError.backendClosed, MetaError.notFound]) ∧
    (∀ s id m e, Store.updateMeta s id m = .error e →
      e ∈ [MetaError.backendClosed, MetaError.notFound]) ∧
    (∀ s id e, Store.deleteMeta s id = .error e →
      e ∈ [MetaError.backendClosed, MetaError.notFound]) ∧
    (∀ s st opts e, Store.listMessages s st opts = .error e →
      e = MetaError.backendClosed) ∧
    (∀ s id fromS toS e, Store.moveToState s id fromS toS = .error e →
      e ∈ [MetaError.backendClosed, MetaError.notFound, MetaError.stateConflict]) ∧
    commonErrors.Nodup := by
  refine ⟨?_, ?_, ?_, ?_, ?_, ?_, by decide⟩
  · intro s id m e h
    unfold Store.storeMeta at h
    by_cases hcl : s.closed
    · simp [hcl] at h
      simp [← h]
    · cases hl : lookup s.records id with
      | some old =>
          simp [hcl, hl] at h
          simp [← h]
      | none => simp [hcl, hl] at h
  · intro s id e h
    unfold Store.getMeta at h
    by_cases hcl : s.closed
    · simp [hcl] at h
      simp [← h]
    · cases hl : lookup s.records id with
      | some old => simp [hcl, hl] at h
      | none =>
          simp [hcl, hl] at h
          simp [← h]
  · intro s id m e h
    unfold Store.updateMeta at h
    by_cases hcl : s.closed
    · simp [hcl] at h
      simp [← h]
    · cases hl : lookup s.records id with
      | some old => simp [hcl, hl] at h
      | none =>
          simp [hcl, hl] at h
          simp [← h]
  · intro s id e h
    unfold Store.deleteMeta at h
    by_cases hcl : s.closed
    · simp [hcl] at h
      simp [← h]
    · cases hl : lookup s.records id with
      | some old => simp [hcl, hl] at h
      | none =>
          simp [hcl, hl] at h
          simp [← h]
  · intro s st opts e h
    unfold Store.listMessages at h
    by_cases hcl : s.closed
    · simp [hcl] at h
      exact h.symm
    · simp [hcl] at h
  · intro s id fromS toS e h
    unfold Store.moveToState at h
    by_cases hcl : s.closed
    · simp [hcl] at h
      simp [← h]
    · cases hl : lookup s.records id with
      | none =>
          simp [hcl, hl] at h
          simp [← h]
      | some old =>
          by_cases hst : old.State = fromS
          · simp [hcl, hl, hst] at h
          · simp [hcl, hl, hst] at h
            simp [← h]

/-- Witness for the amended C3: a call on a closed store produces the
BackendClosed kind, which is in the closed surface. -/
theorem c3_error_surface_witness :
    MetaError.backendClosed ∈ [MetaError.backendClosed, MetaError.alreadyExists] :=
  c3_error_surface.1 closedStore "x" sampleMeta MetaError.backendClosed rfl

end MetaStorage
